import Mathlib

/-!
Verification development for the Peloton execution-core sources:
`src/backend/executor/nested_loop_join_executor.cpp`, `src/storage/tuple.h`
and `src/include/optimizer/group.h`.

The C++ is embedded shallowly: logical tiles are lists of position lists,
child operators are deterministic batch streams with a cursor (the operator
contract `Init` / `Execute` / `GetOutput`), the join executor's `DExecute`
is a fuel-indexed function whose recursive call at the retry-on-empty site
mirrors the self-call in the source, and C++ `assert` failures are an
explicit outcome.
-/

set_option autoImplicit false

namespace Peloton

/-! ### Three-valued predicate results (expression collaborator) -/

/-- Three-valued boolean returned by `AbstractExpression::Evaluate`:
`{true, false, unknown}`. -/
inductive Tri where
  | tt
  | ff
  | unknown
deriving DecidableEq, Repr

/-- Modelled from the spec: `Value::IsFalse` (common/value.h is not among the
sources). The predicate result is three-valued and `IsFalse` holds exactly of
the value "false"; an "unknown" (null boolean) is neither true nor false. -/
def Tri.IsFalse : Tri → Bool
  | Tri.ff => true
  | _ => false

/-! ### Logical tiles -/

/-- A logical tile: a schema (column descriptors, kept abstract as `Nat`) plus
one position list per column (`LogicalTile::GetSchema`,
`LogicalTile::GetPositionLists`). -/
structure LogicalTile where
  schema : List Nat
  positionLists : List (List Nat)
deriving DecidableEq, Repr

/-- Row count as the join reads it: `position_lists[0].size()`. -/
def LogicalTile.rowCount (t : LogicalTile) : Nat :=
  (t.positionLists.headD []).length

/-- Column count as the join reads it: `position_lists.size()`. -/
def LogicalTile.columnCount (t : LogicalTile) : Nat :=
  t.positionLists.length

/-- Tile invariant (§3 of the design): every position list has the same
length, the row count. -/
def LogicalTile.WellFormed (t : LogicalTile) : Prop :=
  ∀ col ∈ t.positionLists, col.length = t.rowCount

/-! ### Child operators (pull-based operator contract) -/

/-- A child operator, modelled as the deterministic batch stream the operator
contract describes: `Init` restarts iteration, `Execute` advances and
reports `false` on exhaustion, `GetOutput` yields the batch produced by the
last successful `Execute`. -/
structure ChildState where
  batches : List LogicalTile
  cursor : Nat
  out : Option LogicalTile
deriving DecidableEq, Repr

/-- Model of `AbstractExecutor::Execute` on a child: produce the next batch if one
remains (returning `true` and setting the output), else return `false`. -/
def childExecute (c : ChildState) : Bool × ChildState :=
  match c.batches[c.cursor]? with
  | some t => (true, { c with cursor := c.cursor + 1, out := some t })
  | none => (false, c)

/-- Model of `AbstractExecutor::Init` on a child: restart iteration from the
beginning. -/
def childInit (c : ChildState) : ChildState :=
  { c with cursor := 0 }

/-- A fresh child over a given list of batches. -/
def childOf (bs : List LogicalTile) : ChildState :=
  { batches := bs, cursor := 0, out := none }

/-! ### The nested-loop join executor -/

/-- Join predicate: evaluated on a pair of container tuples, i.e. on
(left tile, left row index, right tile, right row index). -/
def Pred : Type :=
  LogicalTile → Nat → LogicalTile → Nat → Tri

/-- Mutable state of `NestedLoopJoinExecutor` together with its two
children and its output slot (`SetOutput` target). -/
structure JoinState where
  left_scan_start : Bool
  left : ChildState
  right : ChildState
  output : Option LogicalTile
deriving DecidableEq, Repr

/-- Model of `NestedLoopJoinExecutor::DInit`: predicate comes from the plan node;
`left_scan_start` starts true. -/
def DInit (lbs rbs : List LogicalTile) : JoinState :=
  { left_scan_start := true
    left := childOf lbs
    right := childOf rbs
    output := none }

/-- Whether the inner-loop body keeps the pair (left row `i`, right row `j`):
the source skips the pair exactly when a predicate exists and
`predicate_->Evaluate(...).IsFalse()` holds. -/
def keepPair (pred : Option Pred) (lt rt : LogicalTile) (i j : Nat) : Bool :=
  match pred with
  | none => true
  | some p => !(p lt i rt j).IsFalse

/-- The two nested row loops of `DExecute` (lines 135-173): enumerate left
rows `i` (outer) and right rows `j` (inner), keeping the pairs the predicate
branch does not skip, in left-major/right-minor order. -/
def matchingPairs (keep : Nat → Nat → Bool) (l r : Nat) : List (Nat × Nat) :=
  (List.range l).flatMap fun i =>
    (List.range r).filterMap fun j =>
      if keep i j then some (i, j) else none

/-- The output tile `DExecute` builds for one (left tile, right tile) pair:
schema is the left schema followed by the right schema (lines 100-107), and
each output position list collects, over the matching pairs in loop order,
the corresponding source column's position (lines 130-173). -/
def buildOutputTile (pred : Option Pred) (lt rt : LogicalTile) : LogicalTile :=
  { schema := lt.schema ++ rt.schema
    positionLists :=
      (lt.positionLists.map fun col =>
        (matchingPairs (keepPair pred lt rt) lt.rowCount rt.rowCount).map fun p =>
          col.getD p.1 0) ++
      (rt.positionLists.map fun col =>
        (matchingPairs (keepPair pred lt rt) lt.rowCount rt.rowCount).map fun p =>
          col.getD p.2 0) }

/-- Outcome of one non-recursive pass through the body of `DExecute`. -/
inductive StepRes where
  | ret (b : Bool)
  | assertFail
  | retry
deriving DecidableEq, Repr

/-- One pass through `DExecute`'s body plus its observable trace. -/
structure StepOut where
  res : StepRes
  s : JoinState
  leftPulled : Bool
  rightRestarted : Bool
  rightOk : Bool
deriving DecidableEq, Repr

/-- Lines 90-188 of `DExecute`, after the children have been consulted:
fetch both tiles (`GetOutput`), assert they are non-null, assert both column
counts are positive (lines 122-123), build the output tile, and either
publish it (`SetOutput`, return true) or signal a retry when it has zero
rows. -/
def joinTiles (pred : Option Pred) (s : JoinState)
    (leftPulled rightRestarted : Bool) : StepOut :=
  match s.left.out, s.right.out with
  | some lt, some rt =>
    if lt.columnCount = 0 ∨ rt.columnCount = 0 then
      ⟨StepRes.assertFail, s, leftPulled, rightRestarted, true⟩
    else
      let outTile := buildOutputTile pred lt rt
      if 0 < (outTile.positionLists.headD []).length then
        ⟨StepRes.ret true, { s with output := some outTile },
          leftPulled, rightRestarted, true⟩
      else
        ⟨StepRes.retry, s, leftPulled, rightRestarted, true⟩
  | _, _ => ⟨StepRes.assertFail, s, leftPulled, rightRestarted, true⟩

/-- Lines 77-88 of `DExecute`: pull the left child when this is the first
scan or the right child was just restarted (clearing `left_scan_start`
before the pull), returning false if the left child is exhausted; otherwise
reuse the cached left tile. -/
def afterRight (pred : Option Pred) (s : JoinState)
    (rightRestarted : Bool) : StepOut :=
  if s.left_scan_start || rightRestarted then
    let s1 := { s with left_scan_start := false }
    let (lok, l1) := childExecute s1.left
    let s2 := { s1 with left := l1 }
    if lok then
      joinTiles pred s2 true rightRestarted
    else
      ⟨StepRes.ret false, s2, true, rightRestarted, true⟩
  else
    joinTiles pred s false rightRestarted

/-- One non-recursive pass through `DExecute` (lines 59-188): pull the right
child, on exhaustion restart it and pull again (returning false if still
exhausted), then hand over to the left-pull logic. -/
def DStep (pred : Option Pred) (s : JoinState) : StepOut :=
  let (rok1, r1) := childExecute s.right
  if rok1 then
    afterRight pred { s with right := r1 } false
  else
    let r2 := childInit r1
    let (rok2, r3) := childExecute r2
    if rok2 then
      afterRight pred { s with right := r3 } true
    else
      ⟨StepRes.ret false, { s with right := r3 }, false, true, false⟩

/-- Result of a (possibly self-recursive) `DExecute` call. -/
inductive ExecResult where
  | ok (b : Bool)
  | assertFail
  | outOfFuel
deriving DecidableEq, Repr

/-- Outcome of `DExecute`: the returned value, the final state, and the total
number of `DExecute` invocations entered (the self-recursion depth of the
retry chain). -/
structure ExecOut where
  result : ExecResult
  s : JoinState
  depth : Nat
deriving DecidableEq, Repr

/-- Model of `NestedLoopJoinExecutor::DExecute`, fuel-indexed because the retry site
(line 187) re-invokes `DExecute` itself. Faithful to the source, the outer
invocation DISCARDS the recursive call's return value and then executes
`return true` (line 190): when the inner call finishes with either `true` or
`false`, the outer call reports `true`. -/
def DExecute (pred : Option Pred) : Nat → JoinState → ExecOut
  | 0, s => ⟨ExecResult.outOfFuel, s, 0⟩
  | fuel + 1, s =>
    let st := DStep pred s
    match st.res with
    | StepRes.ret b => ⟨ExecResult.ok b, st.s, 1⟩
    | StepRes.assertFail => ⟨ExecResult.assertFail, st.s, 1⟩
    | StepRes.retry =>
      let inner := DExecute pred fuel st.s
      match inner.result with
      | ExecResult.ok _ => ⟨ExecResult.ok true, inner.s, inner.depth + 1⟩
      | r => ⟨r, inner.s, inner.depth + 1⟩

/-! ### Concrete example inputs -/

/-- A one-row, one-column left tile. -/
def tileA : LogicalTile := { schema := [100], positionLists := [[0]] }

/-- A one-row, one-column right tile. -/
def tileB : LogicalTile := { schema := [200], positionLists := [[0]] }

/-- A second right tile. -/
def tileB2 : LogicalTile := { schema := [200], positionLists := [[1]] }

/-- A zero-column tile (no position lists at all). -/
def tileZC : LogicalTile := { schema := [], positionLists := [] }

/-- A one-column, zero-row tile. -/
def tileZR : LogicalTile := { schema := [7], positionLists := [[]] }

/-- A two-column, two-row left tile. -/
def tileL2 : LogicalTile := { schema := [1, 2], positionLists := [[10, 20], [30, 40]] }

/-- A one-column, three-row right tile. -/
def tileR3 : LogicalTile := { schema := [3], positionLists := [[5, 15, 25]] }

/-- The always-false join predicate. -/
def predFF : Pred := fun _ _ _ _ => Tri.ff

/-- The always-unknown join predicate (e.g. a comparison against NULL). -/
def predUnk : Pred := fun _ _ _ _ => Tri.unknown

/-- The always-true join predicate. -/
def predTT : Pred := fun _ _ _ _ => Tri.tt

/-- Join state reached mid-pass on the input family (one left batch, `n + 1`
identical right batches): the left tile is cached, the right cursor stands at
`k`. -/
def skState (n k : Nat) : JoinState :=
  { left_scan_start := false
    left := { batches := [tileA], cursor := 1, out := some tileA }
    right := { batches := List.replicate (n + 1) tileB, cursor := k, out := some tileB }
    output := none }

/-- The full cross product of row indices in left-major/right-minor order. -/
def crossPairs (l r : Nat) : List (Nat × Nat) :=
  (List.range l).flatMap fun i => (List.range r).map fun j => (i, j)

/-! ### Tuple storage model (`src/storage/tuple.h`) -/

/-- Supported fixed-width inlined column types with their byte widths
(schema collaborator's type metadata). -/
inductive ValueType where
  | tinyint
  | smallint
  | integer
  | bigint
deriving DecidableEq, Repr

/-- Model of `Schema::GetLength(column)`: byte width of a column type. -/
def ValueType.byteLength : ValueType → Nat
  | ValueType.tinyint => 1
  | ValueType.smallint => 2
  | ValueType.integer => 4
  | ValueType.bigint => 8

/-- Smallest representable value of a column type (two's complement). -/
def ValueType.minVal (t : ValueType) : Int :=
  -(2 ^ (8 * t.byteLength - 1))

/-- Largest representable value of a column type (two's complement). -/
def ValueType.maxVal (t : ValueType) : Int :=
  2 ^ (8 * t.byteLength - 1) - 1

/-- Modelled from the spec: the `Value` class (common/value.h is not among
the sources) — a typed value, here a fixed-width integer. -/
structure Value where
  ty : ValueType
  data : Int
deriving DecidableEq, Repr

/-- Modelled from the spec: `Value::CastAs` casts a value to the column's
declared type; a value outside the target range raises (modelled as
`none`). -/
def Value.CastAs (v : Value) (t : ValueType) : Option Value :=
  if t.minVal ≤ v.data ∧ v.data ≤ t.maxVal then some ⟨t, v.data⟩ else none

/-- Little-endian byte encoding of a natural number into `w` bytes. -/
def natToBytes : Nat → Nat → List Nat
  | 0, _ => []
  | w + 1, n => n % 256 :: natToBytes w (n / 256)

/-- Little-endian byte decoding. -/
def bytesToNat : List Nat → Nat
  | [] => 0
  | b :: bs => b + 256 * bytesToNat bs

/-- Modelled from the spec: `Value::Serialize` for an inlined fixed-width
column — two's complement little-endian encoding into
`byteLength` bytes. -/
def Value.Serialize (v : Value) : List Nat :=
  natToBytes v.ty.byteLength ((v.data % (2 ^ (8 * v.ty.byteLength))).toNat)

/-- Modelled from the spec: `Value::Deserialize` for an inlined fixed-width
column — read `byteLength` bytes at the data pointer and sign-extend. -/
def Value.Deserialize (bytes : List Nat) (t : ValueType) : Value :=
  let n : Int := bytesToNat (bytes.take t.byteLength)
  ⟨t, if n < 2 ^ (8 * t.byteLength - 1) then n else n - 2 ^ (8 * t.byteLength)⟩

/-- Model of `Schema::GetLength()`: total byte length of a row. -/
def schemaLength (s : List ValueType) : Nat :=
  (s.map ValueType.byteLength).sum

/-- Byte offset of column `c` in the fixed row layout (the schema's fixed
offset for the column). -/
def colOffset (s : List ValueType) (c : Nat) : Nat :=
  ((s.take c).map ValueType.byteLength).sum

/-- Overwrite `bytes.length` bytes of `buf` starting at `off`. -/
def writeAt (buf : List Nat) (off : Nat) (bytes : List Nat) : List Nat :=
  buf.take off ++ bytes ++ buf.drop (off + bytes.length)

/-- Model of `storage::Tuple` at the value level: a borrowed schema reference and a
byte buffer, either of which may be unset (`nullptr`). -/
structure Tuple where
  tuple_schema : Option (List ValueType)
  tuple_data : Option (List Nat)
deriving DecidableEq, Repr

/-- Model of `Tuple::SetValue(column_id, value)`: asserts schema and data are set,
casts the value to the column's declared type, and serializes it in place at
the column's offset (`value.Serialize(dataPtr, ...)`). Assertion and cast
failures are `none`. -/
def Tuple.SetValue (t : Tuple) (c : Nat) (v : Value) : Option Tuple := do
  let s ← t.tuple_schema
  let d ← t.tuple_data
  let ty ← s[c]?
  let v2 ← v.CastAs ty
  some { t with tuple_data := some (writeAt d (colOffset s c) v2.Serialize) }

/-- Model of `Tuple::GetValue(column_id)`: asserts schema and data are set, then
decodes the column's bytes at its offset using the schema's type
(`Value::Deserialize(data_ptr, column_type, is_inlined)`). -/
def Tuple.GetValue (t : Tuple) (c : Nat) : Option Value := do
  let s ← t.tuple_schema
  let d ← t.tuple_data
  let ty ← s[c]?
  some (Value.Deserialize (d.drop (colOffset s c)) ty)

/-! ### Tuple buffer ownership model (`src/storage/tuple.h`) -/

/-- Allocated heap regions, by abstract id. -/
structure Heap where
  allocated : List Nat
deriving DecidableEq, Repr

/-- An id not currently allocated. -/
def Heap.freshId (h : Heap) : Nat :=
  h.allocated.foldr max 0 + 1

/-- Ownership-level view of `storage::Tuple`: the `tuple_data` pointer as a
heap region id (`none` = nullptr) plus the region ids of the out-of-line
payloads its non-inlined columns reference. The class carries no ownership
flag distinguishing owned from borrowed buffers. -/
structure TupleRef where
  tuple_data : Option Nat
  uninlined : List Nat
deriving DecidableEq, Repr

/-- Model of `Tuple()` (the default constructor): null data pointer. -/
def tupleCtorDefault : TupleRef :=
  ⟨none, []⟩

/-- Model of `Tuple(schema, char* data)`: bind to a caller-owned buffer; the heap is
untouched, no ownership transfer happens. -/
def tupleCtorBorrow (r : Nat) (payloads : List Nat) : TupleRef :=
  ⟨some r, payloads⟩

/-- Model of `Tuple(schema, true)`: allocate a fresh owned buffer
(`new char[schema->GetLength()]`). -/
def tupleCtorAllocate (h : Heap) : TupleRef × Heap :=
  let r := h.freshId
  (⟨some r, []⟩, ⟨r :: h.allocated⟩)

/-- Model of the destructor `~Tuple()`: `delete[] tuple_data`, unconditionally on whatever buffer is
bound; a null pointer is a no-op. Neither the schema nor the uninlined
payload regions are touched. -/
def tupleDestruct (t : TupleRef) (h : Heap) : Heap :=
  match t.tuple_data with
  | none => h
  | some r => ⟨h.allocated.erase r⟩

/-- Modelled from the spec: `Tuple::FreeUninlinedData` (declared in the
header, body elsewhere) — the separate explicit operation releasing the
out-of-line variable-length payloads. -/
def tupleFreeUninlinedData (t : TupleRef) (h : Heap) : Heap :=
  ⟨t.uninlined.foldl (fun acc r => acc.erase r) h.allocated⟩

/-! ### Optimizer group model (`src/include/optimizer/group.h`) -/

/-- Model of `optimizer::Group`: memo group state. Operators, group expressions,
cost-table entries and the group id are abstract. -/
structure Group where
  id_ : Int
  items_ : List Nat
  expressions_ : List Nat
  lowest_cost_expressions_ : List (Nat × Nat × Nat)
  has_explored_ : Bool
  has_implemented_ : Bool
deriving DecidableEq, Repr

/-- Model of `Group::SetExplorationFlag`: `has_explored_ = true`. -/
def Group.SetExplorationFlag (g : Group) : Group :=
  { g with has_explored_ := true }

/-- Model of `Group::HasExplored`: read `has_explored_`. -/
def Group.HasExplored (g : Group) : Bool :=
  g.has_explored_

/-- Model of `Group::SetImplementationFlag`: `has_implemented_ = true`. -/
def Group.SetImplementationFlag (g : Group) : Group :=
  { g with has_implemented_ := true }

/-- Model of `Group::HasImplemented`: read `has_implemented_`. -/
def Group.HasImplemented (g : Group) : Bool :=
  g.has_implemented_

/-- Modelled from the spec: `Group::add_item` (body in group.cpp, absent
from the sources) — per its declaration it records an operator in `items_`
and touches nothing else. -/
def Group.add_item (g : Group) (op : Nat) : Group :=
  { g with items_ := g.items_ ++ [op] }

/-- Modelled from the spec: `Group::AddExpression` (body in group.cpp,
absent from the sources) — per its declaration it appends to
`expressions_` and touches nothing else. -/
def Group.AddExpression (g : Group) (e : Nat) : Group :=
  { g with expressions_ := g.expressions_ ++ [e] }

/-- Modelled from the spec: `Group::SetExpressionCost` (body in group.cpp,
absent from the sources) — per its declaration it updates
`lowest_cost_expressions_` and touches nothing else. -/
def Group.SetExpressionCost (g : Group) (e cost props : Nat) : Group :=
  { g with lowest_cost_expressions_ := (props, cost, e) :: g.lowest_cost_expressions_ }

/-- The public mutating interface of `Group` (the read accessors
`GetBestExpression`, `GetExpressions`, `HasExplored` and `HasImplemented`
return values without changing state). -/
inductive GroupOp where
  | addItem (op : Nat)
  | addExpression (e : Nat)
  | setExpressionCost (e cost props : Nat)
  | setExplorationFlag
  | setImplementationFlag
deriving DecidableEq, Repr

/-- Apply one public operation. -/
def applyGroupOp (g : Group) : GroupOp → Group
  | GroupOp.addItem op => g.add_item op
  | GroupOp.addExpression e => g.AddExpression e
  | GroupOp.setExpressionCost e cost props => g.SetExpressionCost e cost props
  | GroupOp.setExplorationFlag => g.SetExplorationFlag
  | GroupOp.setImplementationFlag => g.SetImplementationFlag

/-- Apply a sequence of public operations (the rest of the group's
lifetime). -/
def applyGroupOps (g : Group) (ops : List GroupOp) : Group :=
  ops.foldl applyGroupOp g

/-! ## Theorems -/

/-- Membership in the pair enumeration of the two nested row loops. -/
theorem mem_matchingPairs {keep : Nat → Nat → Bool} {l r i j : Nat} :
    (i, j) ∈ matchingPairs keep l r ↔ i < l ∧ j < r ∧ keep i j = true := by
  simp only [matchingPairs, List.mem_flatMap, List.mem_filterMap, List.mem_range]
  constructor
  · rintro ⟨a, ha, b, hb, hab⟩
    by_cases h : keep a b
    · rw [if_pos h] at hab
      obtain ⟨h1, h2⟩ := Prod.mk.injEq .. ▸ Option.some.injEq .. ▸ hab
      subst h1; subst h2
      exact ⟨ha, hb, h⟩
    · rw [if_neg h] at hab
      exact absurd hab (Option.some_ne_none _).symm
  · rintro ⟨hi, hj, hk⟩
    exact ⟨i, hi, j, hj, by rw [if_pos hk]⟩

/-- With no predicate the inner loops keep every pair. -/
theorem matchingPairs_true_eq (l r : Nat) :
    matchingPairs (fun _ _ => true) l r = crossPairs l r := by
  unfold matchingPairs crossPairs
  congr 1
  funext i
  have h : (fun j => if (fun (_ _ : Nat) => true) i j then some ((i, j)) else none) =
      some ∘ fun j : Nat => (i, j) := rfl
  rw [h, List.filterMap_eq_map]

/-- Unfolding the cross product one left row at a time. -/
theorem crossPairs_succ (n r : Nat) :
    crossPairs (n + 1) r = crossPairs n r ++ (List.range r).map fun j => (n, j) := by
  unfold crossPairs
  rw [List.range_succ, List.flatMap_append]
  simp

/-- The cross product has `l * r` pairs. -/
theorem crossPairs_length (l r : Nat) : (crossPairs l r).length = l * r := by
  induction l with
  | zero => simp [crossPairs]
  | succ n ih =>
    rw [crossPairs_succ, List.length_append, ih, List.length_map, List.length_range,
      Nat.succ_mul]

/-- Pair `(i, j)` sits at index `i * r + j` of the cross product. -/
theorem crossPairs_getElem {l r i j : Nat} (hi : i < l) (hj : j < r) :
    (crossPairs l r)[i * r + j]? = some (i, j) := by
  induction l with
  | zero => omega
  | succ n ih =>
    rw [crossPairs_succ]
    rcases Nat.lt_or_ge i n with h | h
    · rw [List.getElem?_append_left]
      · exact ih h
      · rw [crossPairs_length]
        have h1 : (i + 1) * r ≤ n * r := Nat.mul_le_mul_right r h
        have h2 : (i + 1) * r = i * r + r := Nat.succ_mul i r
        omega
    · have hin : i = n := by omega
      subst hin
      rw [List.getElem?_append_right]
      · rw [crossPairs_length, Nat.add_sub_cancel_left, List.getElem?_map,
          List.getElem?_range hj]
        rfl
      · rw [crossPairs_length]
        exact Nat.le_add_right _ _

/-- A flat map producing only empty lists is empty. -/
theorem flatMap_const_nil {α β : Type} (l : List α) :
    (l.flatMap fun _ => ([] : List β)) = [] := by
  induction l with
  | nil => rfl
  | cons a t ih => rw [List.flatMap_cons, ih, List.nil_append]

/-- The tile-joining stage reports the flags it was handed, always signals
that a right tile was obtained, and never advances the left child. -/
theorem joinTiles_spec (pred : Option Pred) (s : JoinState) (lp rr : Bool) :
    (joinTiles pred s lp rr).leftPulled = lp ∧
    (joinTiles pred s lp rr).rightRestarted = rr ∧
    (joinTiles pred s lp rr).rightOk = true ∧
    (joinTiles pred s lp rr).s.left = s.left := by
  unfold joinTiles
  cases s.left.out <;> cases s.right.out
  · exact ⟨rfl, rfl, rfl, rfl⟩
  · exact ⟨rfl, rfl, rfl, rfl⟩
  · exact ⟨rfl, rfl, rfl, rfl⟩
  · dsimp only
    split_ifs <;> exact ⟨rfl, rfl, rfl, rfl⟩

/-- C1: the claim says an advance returns true only with a fresh output
batch, false meaning exhausted, on the retry path included. On the retry
path the source discards the recursive `DExecute()` return value and runs
`return true` (lines 182-190) although its own comment there argues false
would have been returned already: with one left batch, one right batch and
an always-false predicate, the first advance reports true while no output
batch was ever set. -/
theorem C1_advance_true_without_output :
    (DExecute (some predFF) 5 (DInit [tileA] [tileB])).result = ExecResult.ok true ∧
    (DExecute (some predFF) 5 (DInit [tileA] [tileB])).s.output = none :=
  ⟨rfl, rfl⟩

/-- C2 counterexample: the source skips a pair only when the predicate
evaluates to exactly "false" (`Evaluate(...).IsFalse()`, line 149), so a
pair whose three-valued predicate result is "unknown" IS emitted: under the
always-unknown predicate on one-row tiles, the pair `(0, 0)` is in the
output batch although the predicate did not evaluate to "true". -/
theorem C2_unknown_pair_emitted :
    (0, 0) ∈ matchingPairs (keepPair (some predUnk) tileA tileB)
      tileA.rowCount tileB.rowCount ∧
    (buildOutputTile (some predUnk) tileA tileB).rowCount = 1 ∧
    predUnk tileA 0 tileB 0 ≠ Tri.tt := by
  refine ⟨?_, rfl, by decide⟩
  decide

/-- C2 (amended): a pair examined by the join is emitted if and only if the
three-valued predicate does NOT evaluate to exactly "false" on it — a
result of "unknown" is treated like "true" (emitted), not like "false". -/
theorem C2_pair_emitted_iff_not_false (p : Pred) (lt rt : LogicalTile) (i j : Nat) :
    (i, j) ∈ matchingPairs (keepPair (some p) lt rt) lt.rowCount rt.rowCount ↔
      i < lt.rowCount ∧ j < rt.rowCount ∧ p lt i rt j ≠ Tri.ff := by
  rw [mem_matchingPairs]
  constructor
  · rintro ⟨hi, hj, hk⟩
    refine ⟨hi, hj, ?_⟩
    intro hff
    rw [keepPair, hff] at hk
    exact absurd hk (by decide)
  · rintro ⟨hi, hj, hk⟩
    refine ⟨hi, hj, ?_⟩
    rw [keepPair]
    cases h : p lt i rt j
    · rfl
    · exact absurd h hk
    · rfl

/-- C2 witness: instance of the amended emission criterion at the
always-true predicate on the one-row tiles. -/
theorem C2_pair_emitted_iff_not_false_witness :
    (0, 0) ∈ matchingPairs (keepPair (some predTT) tileA tileB)
      tileA.rowCount tileB.rowCount ↔
      0 < tileA.rowCount ∧ 0 < tileB.rowCount ∧ predTT tileA 0 tileB 0 ≠ Tri.ff :=
  C2_pair_emitted_iff_not_false predTT tileA tileB 0 0

/-- With no predicate every pair is kept. -/
theorem keepPair_none (lt rt : LogicalTile) : keepPair none lt rt = fun _ _ => true :=
  rfl

/-- The no-predicate output position lists, written over the explicit cross
product. -/
theorem buildOutputTile_none_positionLists (lt rt : LogicalTile) :
    (buildOutputTile none lt rt).positionLists =
      (lt.positionLists.map fun col =>
        (crossPairs lt.rowCount rt.rowCount).map fun p => col.getD p.1 0) ++
      (rt.positionLists.map fun col =>
        (crossPairs lt.rowCount rt.rowCount).map fun p => col.getD p.2 0) := by
  unfold buildOutputTile
  rw [keepPair_none, matchingPairs_true_eq]

/-- C3: with no predicate, a left batch of L rows and Lc columns joined
against a right batch of R rows and Rc columns (all nonzero) yields an
output batch whose schema is the left columns followed by the right columns,
with Lc + Rc position lists each of length L·R, and whose row `i·R + j`
concatenates left row `i`'s positions (output columns `0..Lc-1`) with right
row `j`'s positions (output columns `Lc..Lc+Rc-1`): every pair `(i, j)` is
covered exactly once, in left-major/right-minor order. -/
theorem C3_cross_product_complete (lt rt : LogicalTile)
    (hL : 0 < lt.rowCount) (hR : 0 < rt.rowCount)
    (hLc : 0 < lt.columnCount) (hRc : 0 < rt.columnCount) :
    (buildOutputTile none lt rt).schema = lt.schema ++ rt.schema ∧
    (buildOutputTile none lt rt).columnCount = lt.columnCount + rt.columnCount ∧
    (∀ col ∈ (buildOutputTile none lt rt).positionLists,
      col.length = lt.rowCount * rt.rowCount) ∧
    (∀ k i j, k < lt.columnCount → i < lt.rowCount → j < rt.rowCount →
      ((buildOutputTile none lt rt).positionLists.getD k []).getD
          (i * rt.rowCount + j) 0 =
        (lt.positionLists.getD k []).getD i 0) ∧
    (∀ k i j, k < rt.columnCount → i < lt.rowCount → j < rt.rowCount →
      ((buildOutputTile none lt rt).positionLists.getD
            (lt.columnCount + k) []).getD (i * rt.rowCount + j) 0 =
        (rt.positionLists.getD k []).getD j 0) := by
  refine ⟨rfl, ?_, ?_, ?_, ?_⟩
  · show ((buildOutputTile none lt rt).positionLists).length = _
    rw [buildOutputTile_none_positionLists, List.length_append, List.length_map,
      List.length_map]
    rfl
  · intro col hcol
    rw [buildOutputTile_none_positionLists] at hcol
    rcases List.mem_append.mp hcol with h | h <;>
      obtain ⟨c, _, rfl⟩ := List.mem_map.mp h <;>
      rw [List.length_map, crossPairs_length]
  · intro k i j hk hi hj
    have hk1 : k < lt.positionLists.length := hk
    have hcol : (buildOutputTile none lt rt).positionLists.getD k [] =
        (crossPairs lt.rowCount rt.rowCount).map fun p =>
          (lt.positionLists.get ⟨k, hk1⟩).getD p.1 0 := by
      rw [buildOutputTile_none_positionLists, List.getD_eq_getElem?_getD,
        List.getElem?_append_left (by rw [List.length_map]; exact hk1),
        List.getElem?_map, List.getElem?_eq_getElem hk1]
      rfl
    rw [hcol, List.getD_eq_getElem?_getD, List.getElem?_map, crossPairs_getElem hi hj]
    simp [List.getD_eq_getElem?_getD, List.getElem?_eq_getElem hk1]
  · intro k i j hk hi hj
    have hk1 : k < rt.positionLists.length := hk
    have hlen : (lt.positionLists.map fun col =>
        (crossPairs lt.rowCount rt.rowCount).map fun p => col.getD p.1 0).length =
        lt.columnCount := by
      rw [List.length_map]; rfl
    have hcol : (buildOutputTile none lt rt).positionLists.getD (lt.columnCount + k) [] =
        (crossPairs lt.rowCount rt.rowCount).map fun p =>
          (rt.positionLists.get ⟨k, hk1⟩).getD p.2 0 := by
      rw [buildOutputTile_none_positionLists, List.getD_eq_getElem?_getD,
        List.getElem?_append_right (by rw [hlen]; exact Nat.le_add_right _ _),
        hlen, Nat.add_sub_cancel_left, List.getElem?_map, List.getElem?_eq_getElem hk1]
      rfl
    rw [hcol, List.getD_eq_getElem?_getD, List.getElem?_map, crossPairs_getElem hi hj]
    simp [List.getD_eq_getElem?_getD, List.getElem?_eq_getElem hk1]

/-- C3 witness: the completeness statement instantiated at a concrete
2-row/2-column left batch and 3-row/1-column right batch. -/
theorem C3_cross_product_complete_witness :
    (buildOutputTile none tileL2 tileR3).schema = tileL2.schema ++ tileR3.schema ∧
    (buildOutputTile none tileL2 tileR3).columnCount =
      tileL2.columnCount + tileR3.columnCount ∧
    (∀ col ∈ (buildOutputTile none tileL2 tileR3).positionLists,
      col.length = tileL2.rowCount * tileR3.rowCount) ∧
    (∀ k i j, k < tileL2.columnCount → i < tileL2.rowCount → j < tileR3.rowCount →
      ((buildOutputTile none tileL2 tileR3).positionLists.getD k []).getD
          (i * tileR3.rowCount + j) 0 =
        (tileL2.positionLists.getD k []).getD i 0) ∧
    (∀ k i j, k < tileR3.columnCount → i < tileL2.rowCount → j < tileR3.rowCount →
      ((buildOutputTile none tileL2 tileR3).positionLists.getD
            (tileL2.columnCount + k) []).getD (i * tileR3.rowCount + j) 0 =
        (tileR3.positionLists.getD k []).getD j 0) :=
  C3_cross_product_complete tileL2 tileR3 (by decide) (by decide) (by decide) (by decide)

/-- C4: the claim says that once both children exhaust, advance reports
no-more-output within (#left batches)·(#right batches) calls, even under an
always-false predicate. Because the retry path discards the recursive
return value and then returns true (lines 182-190), with one left batch and
two right batches under an always-false predicate the first advance reports
true with no output, and the post-advance state is a fixpoint that again
reports true: the operator never reports no-more-output at all. -/
theorem C4_exhaustion_never_reported :
    (DExecute (some predFF) 6 (DInit [tileA] [tileB, tileB2])).result =
      ExecResult.ok true ∧
    (DExecute (some predFF) 6 (DInit [tileA] [tileB, tileB2])).s.output = none ∧
    DExecute (some predFF) 6 (DExecute (some predFF) 6 (DInit [tileA] [tileB, tileB2])).s =
      ⟨ExecResult.ok true, (DExecute (some predFF) 6 (DInit [tileA] [tileB, tileB2])).s, 2⟩ :=
  ⟨rfl, rfl, rfl⟩

/-- C5 counterexample: the claim says the retry on an empty batch pair is an
explicit loop, never self-recursion, so that one advance is one invocation.
In the source the retry site re-invokes `DExecute()` itself (line 187): on
one left batch, one right batch and an always-false predicate a single
advance enters two nested `DExecute` invocations. -/
theorem C5_retry_depth_exceeds_one :
    (DExecute (some predFF) 5 (DInit [tileA] [tileB])).depth = 2 ∧ 1 < 2 :=
  ⟨rfl, by decide⟩

/-- One `DExecute` unfolding when the body pass returns. -/
theorem DExecute_succ_of_ret (pred : Option Pred) (fuel : Nat) (s s' : JoinState)
    (b lp rr ro : Bool) (h : DStep pred s = ⟨StepRes.ret b, s', lp, rr, ro⟩) :
    DExecute pred (fuel + 1) s = ⟨ExecResult.ok b, s', 1⟩ := by
  simp only [DExecute, h]

/-- One `DExecute` unfolding when the body pass signals a retry: the
recursive call happens, its state and depth flow out, and any `ok` value it
returns is flattened to `ok true` (the outer `return true`). -/
theorem DExecute_succ_of_retry (pred : Option Pred) (fuel : Nat) (s s' : JoinState)
    (lp rr ro : Bool) (h : DStep pred s = ⟨StepRes.retry, s', lp, rr, ro⟩) :
    DExecute pred (fuel + 1) s =
      ⟨match (DExecute pred fuel s').result with
          | ExecResult.ok _ => ExecResult.ok true
          | r => r,
        (DExecute pred fuel s').s, (DExecute pred fuel s').depth + 1⟩ := by
  simp only [DExecute, h]
  rcases hres : (DExecute pred fuel s').result with b | _ | _ <;> rfl

/-- Mid-pass step: with the left tile cached and right batch `k` of `n + 1`
still available, one pass through the body under the always-false predicate
retries and moves the right cursor forward. -/
theorem DStep_sk_mid (n k : Nat) (h : k < n + 1) :
    DStep (some predFF) (skState n k) =
      ⟨StepRes.retry, skState n (k + 1), false, false, true⟩ := by
  have hget : (List.replicate (n + 1) tileB)[k]? = some tileB := by
    rw [List.getElem?_replicate, if_pos h]
  simp only [DStep, childExecute, skState, hget]
  rfl

/-- End-of-pass step: with the right child exhausted, the body restarts it,
finds the left child exhausted too, and returns false; the resulting state
is exactly the start-of-pass state. -/
theorem DStep_sk_end (n : Nat) :
    DStep (some predFF) (skState n (n + 1)) =
      ⟨StepRes.ret false, skState n 1, true, true, true⟩ := by
  have hget1 : (List.replicate (n + 1) tileB)[n + 1]? = none := by
    rw [List.getElem?_replicate, if_neg (by omega)]
  have hget0 : (List.replicate (n + 1) tileB)[0]? = some tileB := by
    rw [List.getElem?_replicate, if_pos (by omega)]
  simp only [DStep, childExecute, childInit, skState, hget1, hget0]
  rfl

/-- Running the retry chain from right cursor `n + 1 - m` enters `m + 1`
nested `DExecute` invocations and ends in an `ok` return. -/
theorem run_sk_depth (n : Nat) :
    ∀ m fuel, m ≤ n → m + 1 ≤ fuel →
      (DExecute (some predFF) fuel (skState n (n + 1 - m))).depth = m + 1 ∧
      ∃ b, (DExecute (some predFF) fuel (skState n (n + 1 - m))).result =
        ExecResult.ok b := by
  intro m
  induction m with
  | zero =>
    intro fuel _ hf
    obtain ⟨f, rfl⟩ : ∃ f, fuel = f + 1 := ⟨fuel - 1, by omega⟩
    rw [Nat.sub_zero, DExecute_succ_of_ret (some predFF) f _ _ false true true true
      (DStep_sk_end n)]
    exact ⟨rfl, false, rfl⟩
  | succ m ih =>
    intro fuel hm hf
    obtain ⟨f, rfl⟩ : ∃ f, fuel = f + 1 := ⟨fuel - 1, by omega⟩
    have hk : n + 1 - (m + 1) < n + 1 := by omega
    have hstep := DStep_sk_mid n (n + 1 - (m + 1)) hk
    rw [show n + 1 - (m + 1) + 1 = n + 1 - m from by omega] at hstep
    obtain ⟨hd, b, hb⟩ := ih f (by omega) (by omega)
    rw [DExecute_succ_of_retry (some predFF) f _ _ false false true hstep, hb]
    exact ⟨by rw [hd], true, rfl⟩

/-- C5 (amended): the retry on an empty batch pair is implemented as
self-recursion — the source's `DExecute()` call at line 187 — not as a loop:
each empty batch pair examined adds one nested invocation, so with one left
batch and `n + 1` always-false right batches a single advance enters `n + 2`
nested `DExecute` invocations; the nesting grows without bound in the number
of empty batch pairs. -/
theorem C5_retry_self_recursion_unbounded (n : Nat) :
    (DExecute (some predFF) (n + 2)
        (DInit [tileA] (List.replicate (n + 1) tileB))).depth = n + 2 ∧
    (DExecute (some predFF) (n + 2)
        (DInit [tileA] (List.replicate (n + 1) tileB))).result =
      ExecResult.ok true := by
  have hget : (List.replicate (n + 1) tileB)[0]? = some tileB := by
    rw [List.getElem?_replicate, if_pos (by omega)]
  have hstep : DStep (some predFF) (DInit [tileA] (List.replicate (n + 1) tileB)) =
      ⟨StepRes.retry, skState n 1, true, false, true⟩ := by
    simp only [DStep, childExecute, DInit, childOf, hget]
    rfl
  obtain ⟨hd, b, hb⟩ := run_sk_depth n n (n + 1) (Nat.le_refl n) (by omega)
  rw [show n + 1 - n = 1 from by omega] at hd hb
  show (DExecute (some predFF) (n + 1 + 1) _).depth = _ ∧
    (DExecute (some predFF) (n + 1 + 1) _).result = _
  rw [DExecute_succ_of_retry (some predFF) (n + 1) _ _ true false true hstep, hb]
  exact ⟨by rw [hd], rfl⟩

/-- The nested loops examine no pair when either side has zero rows. -/
theorem matchingPairs_zero (keep : Nat → Nat → Bool) (l r : Nat)
    (h : l = 0 ∨ r = 0) : matchingPairs keep l r = [] := by
  rcases h with h | h
  · rw [h]; rfl
  · subst h
    unfold matchingPairs
    rw [show (fun i => (List.range 0).filterMap fun j =>
        if keep i j then some ((i, j)) else none) =
        fun _ => ([] : List (Nat × Nat)) from funext fun i => rfl]
    exact flatMap_const_nil _

/-- C6 (amended): a zero-ROW input batch with at least one column
contributes zero pairs and raises no error — the body just signals a retry —
and input exhaustion is surfaced as the boolean `ret false`; but a
zero-COLUMN batch fails the positive-column-count assertions (see the C6
counterexample), so "never an error" holds only for zero rows. -/
theorem C6_zero_row_no_error (pred : Option Pred) (s : JoinState) (lp rr : Bool)
    (lt rt : LogicalTile)
    (hl : s.left.out = some lt) (hr : s.right.out = some rt)
    (hLc : 0 < lt.columnCount) (hRc : 0 < rt.columnCount)
    (hz : lt.rowCount = 0 ∨ rt.rowCount = 0) :
    (joinTiles pred s lp rr).res = StepRes.retry ∧
    matchingPairs (keepPair pred lt rt) lt.rowCount rt.rowCount = [] := by
  have hmp := matchingPairs_zero (keepPair pred lt rt) _ _ hz
  refine ⟨?_, hmp⟩
  have hhead : ((buildOutputTile pred lt rt).positionLists.headD []).length = 0 := by
    unfold buildOutputTile
    dsimp only
    rw [hmp]
    have hne : lt.positionLists ≠ [] := List.length_pos.mp hLc
    obtain ⟨c, cs, hcons⟩ := List.exists_cons_of_ne_nil hne
    rw [hcons]
    rfl
  unfold joinTiles
  rw [hl, hr]
  dsimp only
  rw [if_neg (by omega), hhead, if_neg (by omega)]

/-- C6 witness: the amended zero-row statement at a concrete one-column,
zero-row left batch. -/
theorem C6_zero_row_no_error_witness :
    (joinTiles none
        { left_scan_start := false
          left := { batches := [tileZR], cursor := 1, out := some tileZR }
          right := { batches := [tileB], cursor := 1, out := some tileB }
          output := none } true false).res = StepRes.retry ∧
    matchingPairs (keepPair none tileZR tileB) tileZR.rowCount tileB.rowCount = [] :=
  C6_zero_row_no_error none _ true false tileZR tileB rfl rfl
    (by decide) (by decide) (by decide)

/-- The left-pull stage pulls the left child exactly when this is the first
scan or the right child was just restarted, always records that a right tile
was obtained, and leaves the left child untouched when it does not pull. -/
theorem afterRight_spec (pred : Option Pred) (s : JoinState) (rr : Bool) :
    (afterRight pred s rr).leftPulled = (s.left_scan_start || rr) ∧
    (afterRight pred s rr).rightRestarted = rr ∧
    (afterRight pred s rr).rightOk = true ∧
    ((afterRight pred s rr).leftPulled = false → (afterRight pred s rr).s.left = s.left) := by
  unfold afterRight
  cases hls : s.left_scan_start
  · cases rr
    · dsimp only
      obtain ⟨h1, h2, h3, h4⟩ := joinTiles_spec pred s false false
      exact ⟨h1, h2, h3, fun _ => h4⟩
    · dsimp only
      rcases hle : childExecute { s with left_scan_start := false }.left with ⟨lok, l1⟩
      rw [hle]
      cases lok
      · exact ⟨rfl, rfl, rfl, fun h => nomatch h⟩
      · obtain ⟨h1, h2, h3, _⟩ := joinTiles_spec pred
          { s with left_scan_start := false, left := l1 } true true
        exact ⟨h1, h2, h3, fun h => nomatch h1.symm.trans h⟩
  · dsimp only
    rcases hle : childExecute { s with left_scan_start := false }.left with ⟨lok, l1⟩
    rw [hle]
    cases lok
    · cases rr
      · exact ⟨rfl, rfl, rfl, fun h => nomatch h⟩
      · exact ⟨rfl, rfl, rfl, fun h => nomatch h⟩
    · cases rr
      · obtain ⟨h1, h2, h3, _⟩ := joinTiles_spec pred
          { s with left_scan_start := false, left := l1 } true false
        exact ⟨h1, h2, h3, fun h => nomatch h1.symm.trans h⟩
      · obtain ⟨h1, h2, h3, _⟩ := joinTiles_spec pred
          { s with left_scan_start := false, left := l1 } true true
        exact ⟨h1, h2, h3, fun h => nomatch h1.symm.trans h⟩

/-- C7: one pass of the join body calls `Execute` on the left child exactly
when a right tile was obtained this pass AND this is either the very first
scan (`left_scan_start`) or the right child was just exhausted and
restarted; in every other case the cached left batch is reused — the left
child's state is untouched. -/
theorem C7_left_pull_discipline (pred : Option Pred) (s : JoinState) :
    (DStep pred s).leftPulled =
      ((DStep pred s).rightOk && (s.left_scan_start || (DStep pred s).rightRestarted)) ∧
    ((DStep pred s).leftPulled = false → (DStep pred s).s.left = s.left) := by
  unfold DStep
  rcases hre : childExecute s.right with ⟨rok1, r1⟩
  cases rok1
  · dsimp only
    rcases hre2 : childExecute (childInit r1) with ⟨rok2, r3⟩
    cases rok2
    · exact ⟨rfl, fun _ => rfl⟩
    · rw [if_neg (by decide), if_pos rfl]
      obtain ⟨h1, h2, h3, h4⟩ := afterRight_spec pred { s with right := r3 } true
      refine ⟨?_, h4⟩
      rw [h1, h2, h3]
      cases s.left_scan_start <;> rfl
  · dsimp only
    rw [if_pos rfl]
    obtain ⟨h1, h2, h3, h4⟩ := afterRight_spec pred { s with right := r1 } false
    refine ⟨?_, h4⟩
    rw [h1, h2, h3]
    cases s.left_scan_start <;> rfl

/-- C7 witness: the pull-discipline statement at a concrete initial state. -/
theorem C7_left_pull_discipline_witness :
    (DStep none (DInit [tileA] [tileB])).leftPulled =
      ((DStep none (DInit [tileA] [tileB])).rightOk &&
        ((DInit [tileA] [tileB]).left_scan_start ||
          (DStep none (DInit [tileA] [tileB])).rightRestarted)) ∧
    ((DStep none (DInit [tileA] [tileB])).leftPulled = false →
      (DStep none (DInit [tileA] [tileB])).s.left = (DInit [tileA] [tileB]).left) :=
  C7_left_pull_discipline none (DInit [tileA] [tileB])

/-- C6 counterexample: the claim says a zero-column input batch contributes
zero pairs and never raises an error or fails an assertion, but the source
asserts both column counts positive (lines 122-123): with a zero-column
left batch the advance dies on an assertion. -/
theorem C6_zero_column_assert_fails :
    (DExecute none 3 (DInit [tileZC] [tileB])).result = ExecResult.assertFail :=
  rfl

/-- Encoding a number into `w` bytes yields `w` bytes. -/
theorem natToBytes_length (w : Nat) : ∀ n, (natToBytes w n).length = w := by
  induction w with
  | zero => intro n; rfl
  | succ w ih => intro n; simp [natToBytes, ih]

/-- Little-endian byte round trip for numbers below `256 ^ w`. -/
theorem bytesToNat_natToBytes (w : Nat) :
    ∀ n, n < 256 ^ w → bytesToNat (natToBytes w n) = n := by
  induction w with
  | zero =>
    intro n h
    have : n = 0 := by simpa using Nat.lt_one_iff.mp (by simpa using h)
    simp [this, natToBytes, bytesToNat]
  | succ w ih =>
    intro n h
    have hdiv : n / 256 < 256 ^ w := by
      rw [Nat.div_lt_iff_lt_mul (by omega)]
      calc n < 256 ^ (w + 1) := h
        _ = 256 ^ w * 256 := by rw [Nat.pow_succ]
    rw [natToBytes, bytesToNat, ih _ hdiv, Nat.mod_add_div]

/-- The column's bytes fit inside the row: offset plus width is at most the
schema's total length. -/
theorem colOffset_add_le (s : List ValueType) :
    ∀ (c : Nat) (ty : ValueType), s[c]? = some ty →
      colOffset s c + ty.byteLength ≤ schemaLength s := by
  induction s with
  | nil => intro c ty h; simp at h
  | cons a tl ih =>
    intro c ty h
    cases c with
    | zero =>
      obtain rfl : a = ty := by simpa using h
      simp [colOffset, schemaLength]
    | succ c' =>
      have h' : tl[c']? = some ty := by simpa using h
      have hih := ih c' ty h'
      rw [colOffset, schemaLength] at hih ⊢
      simp only [List.take_succ_cons, List.map_cons, List.sum_cons]
      omega

/-- Reading back the bytes just written at an in-bounds offset. -/
theorem writeAt_read (d : List Nat) (off : Nat) (bs : List Nat)
    (h : off + bs.length ≤ d.length) :
    ((writeAt d off bs).drop off).take bs.length = bs := by
  have h1 : (d.take off).length = off := by rw [List.length_take]; omega
  calc ((writeAt d off bs).drop off).take bs.length
      = ((d.take off ++ (bs ++ d.drop (off + bs.length))).drop
          (d.take off).length).take bs.length := by
        rw [writeAt, List.append_assoc, h1]
    _ = bs := by rw [List.drop_left, List.take_left]

/-- Two's-complement round trip: encoding an in-range integer modulo
`2 ^ (8w)` and sign-extending the decoded magnitude restores it. -/
theorem twosComplement_round (w : Nat) (hw : 0 < w) (v : Int)
    (hmin : -(2 ^ (8 * w - 1)) ≤ v) (hmax : v ≤ 2 ^ (8 * w - 1) - 1) :
    (if ((v % 2 ^ (8 * w)).toNat : Int) < 2 ^ (8 * w - 1)
      then ((v % 2 ^ (8 * w)).toNat : Int)
      else ((v % 2 ^ (8 * w)).toNat : Int) - 2 ^ (8 * w)) = v := by
  have hsplit : (2 : Int) ^ (8 * w) = 2 * 2 ^ (8 * w - 1) := by
    rw [← pow_succ']
    congr 1
    omega
  have hHpos : (0 : Int) < 2 ^ (8 * w - 1) := by positivity
  have hMpos : (0 : Int) < 2 ^ (8 * w) := by positivity
  have hmod : v % 2 ^ (8 * w) = v ∨ v % 2 ^ (8 * w) = v + 2 ^ (8 * w) := by
    rcases le_or_lt 0 v with hv | hv
    · left
      exact Int.emod_eq_of_lt hv (by omega)
    · right
      have heq : (v + 2 ^ (8 * w) * 1) % 2 ^ (8 * w) = v % 2 ^ (8 * w) :=
        Int.add_mul_emod_self_left v (2 ^ (8 * w)) 1
      rw [mul_one] at heq
      rw [← heq]
      exact Int.emod_eq_of_lt (by omega) (by omega)
  have htn : ((v % 2 ^ (8 * w)).toNat : Int) = v % 2 ^ (8 * w) :=
    Int.toNat_of_nonneg (Int.emod_nonneg v (by omega))
  rcases hmod with h | h <;> rw [htn, h] <;> split_ifs <;> omega

/-- Every supported column type is at least one byte wide. -/
theorem byteLength_pos (ty : ValueType) : 0 < ty.byteLength := by
  cases ty <;> decide

/-- C8: on a tuple with a set schema and a buffer of the schema's total
length, for every column `c` and every value `v` of the column's declared
type within the type's range, `SetValue(c, v)` followed by `GetValue(c)`
returns exactly `v`: the fixed-width encode/decode round-trips exactly. -/
theorem C8_set_get_round_trip (s : List ValueType) (d : List Nat) (c : Nat)
    (ty : ValueType) (v : Value)
    (hty : s[c]? = some ty) (hvt : v.ty = ty)
    (hlen : d.length = schemaLength s)
    (hmin : ty.minVal ≤ v.data) (hmax : v.data ≤ ty.maxVal) :
    (Tuple.SetValue ⟨some s, some d⟩ c v).bind (fun t => t.GetValue c) = some v := by
  have hcast : v.CastAs ty = some ⟨ty, v.data⟩ := by
    rw [Value.CastAs, if_pos ⟨hmin, hmax⟩]
  have hset : Tuple.SetValue ⟨some s, some d⟩ c v =
      some ⟨some s, some (writeAt d (colOffset s c) (Value.Serialize ⟨ty, v.data⟩))⟩ := by
    simp [Tuple.SetValue, hty, hcast]
  rw [hset, Option.some_bind]
  have hserlen : (Value.Serialize ⟨ty, v.data⟩).length = ty.byteLength :=
    natToBytes_length _ _
  have hoff : colOffset s c + ty.byteLength ≤ d.length := by
    rw [hlen]
    exact colOffset_add_le s c ty hty
  have hread : (((writeAt d (colOffset s c) (Value.Serialize ⟨ty, v.data⟩)).drop
      (colOffset s c)).take ty.byteLength) = Value.Serialize ⟨ty, v.data⟩ := by
    rw [← hserlen]
    exact writeAt_read d _ _ (by rw [hserlen]; exact hoff)
  have hn : (v.data % 2 ^ (8 * ty.byteLength)).toNat < 256 ^ ty.byteLength := by
    have hb : v.data % 2 ^ (8 * ty.byteLength) < 2 ^ (8 * ty.byteLength) :=
      Int.emod_lt_of_pos v.data (by positivity)
    have hcast2 : ((2 : Int) ^ (8 * ty.byteLength)) =
        ((2 ^ (8 * ty.byteLength) : Nat) : Int) := by push_cast; rfl
    have h256 : (256 : Nat) ^ ty.byteLength = 2 ^ (8 * ty.byteLength) := by
      rw [show (256 : Nat) = 2 ^ 8 from rfl, ← Nat.pow_mul]
    rw [h256]
    omega
  have hdeser : Value.Deserialize ((writeAt d (colOffset s c)
      (Value.Serialize ⟨ty, v.data⟩)).drop (colOffset s c)) ty = v := by
    rw [Value.Deserialize]
    have hbytes : bytesToNat (((writeAt d (colOffset s c)
        (Value.Serialize ⟨ty, v.data⟩)).drop (colOffset s c)).take ty.byteLength) =
        (v.data % 2 ^ (8 * ty.byteLength)).toNat := by
      rw [hread, Value.Serialize]
      exact bytesToNat_natToBytes _ _ hn
    rw [hbytes]
    have hround := twosComplement_round ty.byteLength (byteLength_pos ty) v.data
      (by rw [ValueType.minVal] at hmin; omega)
      (by rw [ValueType.maxVal] at hmax; omega)
    cases v with
    | mk vty vdata =>
      cases hvt
      simpa using hround
  simp [Tuple.GetValue, hty, hdeser]

/-- C8 witness: round trip of the value `-2` through a two-byte smallint
column at offset 4 of a concrete two-column schema. -/
theorem C8_set_get_round_trip_witness :
    ([ValueType.integer, ValueType.smallint][1]? = some ValueType.smallint) ∧
    ((⟨ValueType.smallint, -2⟩ : Value).ty = ValueType.smallint) ∧
    (([0, 0, 0, 0, 0, 0] : List Nat).length =
      schemaLength [ValueType.integer, ValueType.smallint]) ∧
    ValueType.smallint.minVal ≤ (-2 : Int) ∧
    (-2 : Int) ≤ ValueType.smallint.maxVal ∧
    (Tuple.SetValue ⟨some [ValueType.integer, ValueType.smallint], some [0, 0, 0, 0, 0, 0]⟩
        1 ⟨ValueType.smallint, -2⟩).bind (fun t => t.GetValue 1) =
      some ⟨ValueType.smallint, -2⟩ :=
  ⟨rfl, rfl, by decide, by decide, by decide,
    C8_set_get_round_trip [ValueType.integer, ValueType.smallint] [0, 0, 0, 0, 0, 0]
      1 ValueType.smallint ⟨ValueType.smallint, -2⟩ rfl rfl (by decide)
      (by decide) (by decide)⟩

/-- C9 counterexample: the claim says destruction never frees a buffer that
was borrowed from the caller, but `~Tuple` runs `delete[] tuple_data`
unconditionally and the class has no ownership flag: destroying a tuple
constructed over the caller-owned region 5 releases region 5. -/
theorem C9_destructor_frees_borrowed_buffer :
    5 ∈ (⟨[5]⟩ : Heap).allocated ∧
    5 ∉ (tupleDestruct (tupleCtorBorrow 5 []) ⟨[5]⟩).allocated := by
  decide

/-- C9 (amended): destruction releases at most the single fixed-layout
buffer currently bound to the view — whether owned or borrowed, since the
class carries no ownership flag — and never touches any other region: in
particular it never frees an out-of-line payload region (those require the
separate explicit `FreeUninlinedData`), and destroying the tuple produced
by the allocating constructor releases exactly the buffer it allocated. -/
theorem C9_destructor_frees_only_bound_buffer (t : TupleRef) (h : Heap) (p : Nat)
    (hp : p ∈ h.allocated) (hne : ∀ r, t.tuple_data = some r → p ≠ r) :
    p ∈ (tupleDestruct t h).allocated ∧
    (tupleDestruct (tupleCtorAllocate h).1 (tupleCtorAllocate h).2).allocated =
      h.allocated := by
  constructor
  · unfold tupleDestruct
    cases ht : t.tuple_data with
    | none => exact hp
    | some r => exact (List.mem_erase_of_ne (hne r ht)).mpr hp
  · show ((⟨h.freshId :: h.allocated⟩ : Heap).allocated.erase h.freshId : List Nat) = _
    exact List.erase_cons_head h.freshId h.allocated

/-- C9 witness: with regions 7 (a payload) and 5 (the bound buffer)
allocated, destroying the tuple bound to 5 keeps 7 allocated. -/
theorem C9_destructor_frees_only_bound_buffer_witness :
    7 ∈ (⟨[7, 5]⟩ : Heap).allocated ∧
    (7 ∈ (tupleDestruct ⟨some 5, [7]⟩ ⟨[7, 5]⟩).allocated ∧
      (tupleDestruct (tupleCtorAllocate ⟨[7, 5]⟩).1
          (tupleCtorAllocate ⟨[7, 5]⟩).2).allocated = (⟨[7, 5]⟩ : Heap).allocated) :=
  ⟨by decide, C9_destructor_frees_only_bound_buffer ⟨some 5, [7]⟩ ⟨[7, 5]⟩ 7
    (by decide) (by intro r hr hcontra; cases hr; simp at hcontra)⟩

/-- C10: the exploration and implementation flags of an optimizer group are
monotone — after `SetExplorationFlag` (resp. `SetImplementationFlag`),
`HasExplored` (resp. `HasImplemented`) stays true under every sequence of
public operations; no public operation resets either flag. -/
theorem C10_group_flags_monotone (g : Group) (ops : List GroupOp) :
    (applyGroupOps g.SetExplorationFlag ops).HasExplored = true ∧
    (applyGroupOps g.SetImplementationFlag ops).HasImplemented = true := by
  have h1 : ∀ (ops : List GroupOp) (g' : Group), g'.HasExplored = true →
      (applyGroupOps g' ops).HasExplored = true := by
    intro ops
    induction ops with
    | nil => intro g' hg; exact hg
    | cons op tl ih =>
      intro g' hg
      refine ih (applyGroupOp g' op) ?_
      cases op <;>
        simp [applyGroupOp, Group.add_item, Group.AddExpression,
          Group.SetExpressionCost, Group.SetExplorationFlag,
          Group.SetImplementationFlag, Group.HasExplored] <;>
        exact hg
  have h2 : ∀ (ops : List GroupOp) (g' : Group), g'.HasImplemented = true →
      (applyGroupOps g' ops).HasImplemented = true := by
    intro ops
    induction ops with
    | nil => intro g' hg; exact hg
    | cons op tl ih =>
      intro g' hg
      refine ih (applyGroupOp g' op) ?_
      cases op <;>
        simp [applyGroupOp, Group.add_item, Group.AddExpression,
          Group.SetExpressionCost, Group.SetExplorationFlag,
          Group.SetImplementationFlag, Group.HasImplemented] <;>
        exact hg
  exact ⟨h1 ops g.SetExplorationFlag rfl, h2 ops g.SetImplementationFlag rfl⟩

end Peloton
